import Mathlib

/-!
Verification of the frame-simulation core of the parakeet/elfantasma
repository (`src/elfantasma/simulation.py` and
`src/parakeet/simulate/projected_potential.py`).

The Python code is shallowly embedded: numpy 2-D arrays become lists of
rows of rationals, structured atom arrays become lists of `Atom` records,
asserts and numpy errors become `Except.error`, and the external MULTEM
engine and the Poisson sampler are abstracted as function parameters.
-/

namespace Elfantasma

/-- An atom record: the 3-D position fields used by windowing and slicing. -/
structure Atom where
  x : ℚ
  y : ℚ
  z : ℚ
  deriving DecidableEq

/-- A 2-D pixel field (a numpy array), stored as a list of rows. -/
structure Mat where
  data : List (List ℚ)
  deriving DecidableEq

/-- The numpy shape of a 2-D field: (number of rows, length of first row). -/
def Mat.shape (m : Mat) : ℕ × ℕ :=
  (m.data.length, (m.data.head?.map List.length).getD 0)

/-- Rectangularity: every row has the declared column count. -/
def Mat.Rect (m : Mat) : Prop :=
  ∀ r ∈ m.data, r.length = m.shape.2

/-- Elementwise scaling of a field by a rate, `rate * ideal_image`. -/
def Mat.scale (r : ℚ) (m : Mat) : Mat :=
  ⟨m.data.map (fun row => row.map (fun v => r * v))⟩

/-- Margin removal from `SingleImageSimulation.__call__` (simulation.py
lines 281-290): `j0 = i0 = margin`, `j1 = shape[0] - margin`,
`i1 = shape[1] - margin`, asserts `margin >= 0`, `i1 > i0`, `j1 > j0`,
then `ideal_image[j0:j1, i0:i1]`.  `margin` is a pixel count, so it is a
natural number here and the first assert always passes. -/
def cropMargin (img : Mat) (margin : ℕ) : Except String Mat :=
  let j0 := margin
  let i0 := margin
  let j1 : ℤ := (img.data.length : ℤ) - margin
  let i1 : ℤ := (((img.data.head?.map List.length).getD 0 : ℕ) : ℤ) - margin
  if ¬ (i1 > (i0 : ℤ)) then .error "AssertionError: i1 > i0"
  else if ¬ (j1 > (j0 : ℤ)) then .error "AssertionError: j1 > j0"
  else .ok ⟨((img.data.drop j0).take (j1 - j0).toNat).map
      (fun row => (row.drop i0).take (i1 - i0).toNat)⟩

/-- The value bound to `image` in `SingleImageSimulation.__call__`.  The
Poisson branch reads `image = (numpy.random.poisson(...),)` — the trailing
comma builds a 1-tuple wrapping the array — while the other branch binds
the bare array.  Both outcomes are kept distinct here. -/
inductive ImageVal where
  | arr (m : Mat)
  | tup (m : Mat)
  deriving DecidableEq

/-- Whether the value is a plain pixel array (and not a 1-tuple). -/
def ImageVal.isPixelArray : ImageVal → Bool
  | .arr _ => true
  | .tup _ => false

/-- The noise step (simulation.py lines 296-302): if `electrons_per_pixel`
is configured, `image = (numpy.random.poisson(electrons_per_pixel *
ideal_image),)`; otherwise `image = ideal_image`.  The random sampler is
abstracted as the function parameter `poisson`. -/
def computeFinalImage (epp : Option ℚ) (poisson : Mat → Mat) (ideal : Mat) :
    ImageVal :=
  match epp with
  | some rate => .tup (poisson (Mat.scale rate ideal))
  | none => .arr ideal

/-- The post-processing tail of `SingleImageSimulation.__call__`: margin
crop of the raw engine field, then the noise step, then the returned
triple `(i, angle, image)`. -/
def framePost (i : ℕ) (angle : ℚ) (raw : Mat) (margin : ℕ) (epp : Option ℚ)
    (poisson : Mat → Mat) : Except String (ℕ × ℚ × ImageVal) :=
  match cropMargin raw margin with
  | .error e => .error e
  | .ok ideal => .ok (i, angle, computeFinalImage epp poisson ideal)

/-- The multem system configuration fields set by
`create_system_configuration`. -/
structure SystemConfiguration where
  precision : String
  device : String
  deriving DecidableEq

/-- Embedding of `create_system_configuration` (simulation.py lines 34-64).
`gpuAvailable` stands for `multem.is_gpu_available()`; the second component
of the result records whether the "GPU not present, reverting to CPU"
warning was issued. -/
def create_system_configuration (device : String) (gpuAvailable : Bool) :
    Except String (SystemConfiguration × Bool) :=
  if ¬ (device = "cpu" ∨ device = "gpu") then
    .error "AssertionError: device not in [cpu, gpu]"
  else if device = "gpu" then
    if gpuAvailable then .ok ({ precision := "float", device := "device" }, false)
    else .ok ({ precision := "float", device := "host" }, true)
  else .ok ({ precision := "float", device := "host" }, false)

/-- The output volume (writer): a pre-allocated stack of image slots and a
parallel angle array, with the declared per-frame height and width. -/
structure Writer where
  height : ℕ
  width : ℕ
  data : List Mat
  angle : List ℚ
  deriving DecidableEq

/-- The writer shape `(num_frames, height, width)`. -/
def Writer.shape (w : Writer) : ℕ × ℕ × ℕ := (w.data.length, w.height, w.width)

/-- The simulation fields relevant to dispatch: the detector size, the scan
angles (one per frame) and the configured worker count. -/
structure SimModel where
  nx : ℕ
  ny : ℕ
  angles : List ℚ
  maxWorkers : ℕ
  deriving DecidableEq

/-- The property `Simulation.shape` (simulation.py lines 434-444):
`(len(scan), detector.ny, detector.nx)`. -/
def SimModel.shape (s : SimModel) : ℕ × ℕ × ℕ := (s.angles.length, s.ny, s.nx)

/-- One result write into the sink: `writer.data[i, :, :] = image;
writer.angle[i] = angle`, where `job i` is the `(angle, image)` part of the
triple returned by `single_image_simulator(self, i)`. -/
def writeResult (job : ℕ → ℚ × Mat) (w : Writer) (i : ℕ) : Writer :=
  { w with data := w.data.set i (job i).2, angle := w.angle.set i (job i).1 }

/-- The observable outcome of `Simulation.run`: the final writer state, the
error outcome, and the worker count passed to the executor factory (none
when no executor was created). -/
structure RunOutcome where
  writer : Writer
  result : Except String Unit
  workersUsed : Option ℕ

/-- Embedding of `Simulation.run` (simulation.py lines 446-512).  The frame
job is the function parameter `job` (index to returned angle and image);
`completionOrder = none` is sequential mode (`cluster["method"] is None`),
and `completionOrder = some order` is pooled mode where `order` is the
order in which `as_completed` yields the futures.  The shape assert runs
before any dispatch; in pooled mode `max_workers` is clamped to
`min(max_workers, shape[0])` before the executor is created. -/
def Simulation.run (sim : SimModel) (job : ℕ → ℚ × Mat) (w : Writer)
    (completionOrder : Option (List ℕ)) : RunOutcome :=
  if ¬ (w.shape = sim.shape) then
    ⟨w, .error "AssertionError: writer.shape == self.shape", none⟩
  else
    match completionOrder with
    | none =>
      ⟨(List.range sim.angles.length).foldl (writeResult job) w, .ok (), none⟩
    | some order =>
      let workers := min sim.maxWorkers sim.shape.1
      ⟨order.foldl (writeResult job) w, .ok (), some workers⟩

/-- Python list slicing `l[start:stop]` with integer bounds, as used by
numpy basic indexing along one axis: negative indices count from the end
and the bounds are clamped to the list. -/
def pySlice {α : Type} (start stop : ℤ) (l : List α) : List α :=
  let n : ℤ := l.length
  let s := if start < 0 then max 0 (n + start) else min start n
  let e := if stop < 0 then max 0 (n + stop) else min stop n
  (l.drop s.toNat).take (e - s).toNat

/-- The crop expression `V[margin:-margin, margin:-margin]` from the
per-slab callback of `ProjectedPotentialSimulator.__call__`
(projected_potential.py line 157). -/
def ppCrop (V : Mat) (margin : ℕ) : Mat :=
  ⟨(pySlice (margin : ℤ) (-(margin : ℤ)) V.data).map
      (fun row => pySlice (margin : ℤ) (-(margin : ℤ)) row)⟩

/-- The numpy transpose `.T` of a 2-D field. -/
def Mat.transpose (m : Mat) : Mat :=
  ⟨(List.range m.shape.2).map (fun j => m.data.filterMap (fun row => row[j]?))⟩

/-- The value assigned to the potential volume slot in the callback:
`V[margin:-margin, margin:-margin].T`. -/
def ppSlotValue (V : Mat) (margin : ℕ) : Mat :=
  (ppCrop V margin).transpose

/-- An entry of a 2-D field, row `j` and column `i`. -/
def Mat.entry (m : Mat) (j i : ℕ) : Option ℚ :=
  m.data[j]?.bind (fun row => row[i]?)

section DispatchLemmas

/-- Folding result writes acts independently on the data and angle arrays. -/
lemma foldl_writeResult_eq (job : ℕ → ℚ × Mat) (l : List ℕ) (w : Writer) :
    l.foldl (writeResult job) w =
      { w with data := l.foldl (fun d i => d.set i (job i).2) w.data,
               angle := l.foldl (fun d i => d.set i (job i).1) w.angle } := by
  induction l generalizing w with
  | nil => rfl
  | cons i t ih => simp [List.foldl_cons, writeResult, ih]

/-- A fold of disjoint-slot writes: slot `k` holds `f k` exactly when some
write targeted it, and is untouched otherwise. -/
lemma foldl_set_getElem? {β : Type} (f : ℕ → β) (l : List ℕ) (d : List β)
    (k : ℕ) :
    (l.foldl (fun acc i => acc.set i (f i)) d)[k]? =
      if k ∈ l then (if k < d.length then some (f k) else none) else d[k]? := by
  induction l generalizing d with
  | nil => simp
  | cons i t ih =>
    rw [List.foldl_cons, ih]
    have hlen : (d.set i (f i)).length = d.length := List.length_set d i (f i)
    by_cases hk : k ∈ t
    · simp [hk, hlen, List.mem_cons]
    · by_cases hki : k = i
      · subst hki
        simp [hk, List.getElem?_set, hlen, List.mem_cons]
      · simp [hk, hki, List.getElem?_set, Ne.symm hki, List.mem_cons]

/-- Two write orders visiting the same set of slots produce the same array. -/
lemma foldl_set_ext {β : Type} (f : ℕ → β) (l₁ l₂ : List ℕ) (d : List β)
    (h : ∀ i, i ∈ l₁ ↔ i ∈ l₂) :
    l₁.foldl (fun acc i => acc.set i (f i)) d =
      l₂.foldl (fun acc i => acc.set i (f i)) d := by
  apply List.ext_getElem?
  intro k
  simp only [foldl_set_getElem?, h k]

end DispatchLemmas

/-- C2: running the same scan with the same per-frame job results in
sequential mode and in pooled mode yields an identical writer (data slots
and angle array), for every completion order of the pooled jobs, because
each frame's job writes exactly its own slot. -/
theorem run_sequential_pooled_agree (sim : SimModel) (job : ℕ → ℚ × Mat)
    (w : Writer) (order : List ℕ)
    (hperm : order.Perm (List.range sim.angles.length))
    (hworkers : 2 ≤ sim.maxWorkers) :
    (Simulation.run sim job w (some order)).writer =
      (Simulation.run sim job w none).writer := by
  by_cases hs : w.shape = sim.shape
  · have hd := foldl_set_ext (fun i => (job i).2) order
      (List.range sim.angles.length) w.data (fun i => hperm.mem_iff)
    have ha := foldl_set_ext (fun i => (job i).1) order
      (List.range sim.angles.length) w.angle (fun i => hperm.mem_iff)
    simp [Simulation.run, hs, foldl_writeResult_eq, hd, ha]
  · simp [Simulation.run, hs]

/-- Witness for C2 on a concrete two-frame scan with reversed completion
order. -/
theorem run_sequential_pooled_agree_witness :
    ([1, 0].Perm (List.range (SimModel.angles ⟨1, 1, [0, 1], 2⟩).length) ∧
      2 ≤ 2) ∧
    (Simulation.run ⟨1, 1, [0, 1], 2⟩
        (fun i => ((i : ℚ), ⟨[[(i : ℚ)]]⟩))
        ⟨1, 1, [⟨[[5]]⟩, ⟨[[6]]⟩], [9, 9]⟩ (some [1, 0])).writer =
      (Simulation.run ⟨1, 1, [0, 1], 2⟩
        (fun i => ((i : ℚ), ⟨[[(i : ℚ)]]⟩))
        ⟨1, 1, [⟨[[5]]⟩, ⟨[[6]]⟩], [9, 9]⟩ none).writer :=
  ⟨⟨by decide, by decide⟩,
    run_sequential_pooled_agree ⟨1, 1, [0, 1], 2⟩
      (fun i => ((i : ℚ), ⟨[[(i : ℚ)]]⟩))
      ⟨1, 1, [⟨[[5]]⟩, ⟨[[6]]⟩], [9, 9]⟩ [1, 0] (by decide) (by decide)⟩

/-- C7: if the writer shape differs from `(num_frames, ny, nx)` the run
aborts at the initial assert, before any dispatch, and no slot of the data
or angle arrays is written (the writer is returned unchanged). -/
theorem run_shape_mismatch_aborts (sim : SimModel) (job : ℕ → ℚ × Mat)
    (w : Writer) (completionOrder : Option (List ℕ))
    (h : w.shape ≠ sim.shape) :
    Simulation.run sim job w completionOrder =
      ⟨w, .error "AssertionError: writer.shape == self.shape", none⟩ := by
  simp [Simulation.run, h]

/-- Witness for C7: a one-slot writer against a zero-frame scan. -/
theorem run_shape_mismatch_aborts_witness :
    (Writer.shape ⟨0, 0, [⟨[]⟩], []⟩ ≠ SimModel.shape ⟨0, 0, [], 1⟩) ∧
    Simulation.run ⟨0, 0, [], 1⟩ (fun _ => (0, ⟨[]⟩)) ⟨0, 0, [⟨[]⟩], []⟩ none =
      ⟨⟨0, 0, [⟨[]⟩], []⟩,
        .error "AssertionError: writer.shape == self.shape", none⟩ :=
  ⟨by decide,
    run_shape_mismatch_aborts ⟨0, 0, [], 1⟩ (fun _ => (0, ⟨[]⟩))
      ⟨0, 0, [⟨[]⟩], []⟩ none (by decide)⟩

/-- C8: in pooled mode the worker count handed to the executor factory is
`min(configured_max_workers, num_frames)`, never more than the number of
frames. -/
theorem run_pooled_worker_count (sim : SimModel) (job : ℕ → ℚ × Mat)
    (w : Writer) (order : List ℕ) (hshape : w.shape = sim.shape) :
    (Simulation.run sim job w (some order)).workersUsed =
        some (min sim.maxWorkers sim.angles.length) ∧
      min sim.maxWorkers sim.angles.length ≤ sim.angles.length := by
  refine ⟨?_, min_le_right _ _⟩
  simp [Simulation.run, hshape, SimModel.shape]

/-- Witness for C8: five configured workers, two frames. -/
theorem run_pooled_worker_count_witness :
    (Writer.shape ⟨1, 1, [⟨[[0]]⟩, ⟨[[0]]⟩], [0, 0]⟩ =
      SimModel.shape ⟨1, 1, [0, 1], 5⟩) ∧
    ((Simulation.run ⟨1, 1, [0, 1], 5⟩ (fun _ => (0, ⟨[[0]]⟩))
        ⟨1, 1, [⟨[[0]]⟩, ⟨[[0]]⟩], [0, 0]⟩ (some [0, 1])).workersUsed =
        some (min 5 (SimModel.angles ⟨1, 1, [0, 1], 5⟩).length) ∧
      min 5 (SimModel.angles ⟨1, 1, [0, 1], 5⟩).length ≤
        (SimModel.angles ⟨1, 1, [0, 1], 5⟩).length) :=
  ⟨by decide,
    run_pooled_worker_count ⟨1, 1, [0, 1], 5⟩ (fun _ => (0, ⟨[[0]]⟩))
      ⟨1, 1, [⟨[[0]]⟩, ⟨[[0]]⟩], [0, 0]⟩ [0, 1] (by decide)⟩

/-- C9: `create_system_configuration` uses the host device for "cpu", uses
the accelerated device for "gpu" when available, downgrades to the host
device with a warning when the GPU is absent, and fails the assert on any
other device string. -/
theorem create_system_configuration_spec :
    (∀ b : Bool, create_system_configuration "cpu" b =
      .ok ({ precision := "float", device := "host" }, false)) ∧
    (create_system_configuration "gpu" true =
      .ok ({ precision := "float", device := "device" }, false)) ∧
    (create_system_configuration "gpu" false =
      .ok ({ precision := "float", device := "host" }, true)) ∧
    (∀ (d : String) (b : Bool), d ≠ "cpu" → d ≠ "gpu" →
      create_system_configuration d b =
        .error "AssertionError: device not in [cpu, gpu]") := by
  refine ⟨fun b => rfl, rfl, rfl, fun d b h1 h2 => ?_⟩
  simp [create_system_configuration, h1, h2]

/-- Witness for C9: the unknown device string "tpu" is rejected. -/
theorem create_system_configuration_spec_witness :
    (("tpu" : String) ≠ "cpu" ∧ ("tpu" : String) ≠ "gpu") ∧
    create_system_configuration "tpu" true =
      .error "AssertionError: device not in [cpu, gpu]" :=
  ⟨⟨by decide, by decide⟩,
    create_system_configuration_spec.2.2.2 "tpu" true (by decide) (by decide)⟩

/-- C5: with no electrons-per-pixel rate configured, the returned frame
image is exactly the cropped ideal image, with no transformation applied. -/
theorem frame_no_noise_identity (i : ℕ) (angle : ℚ) (raw : Mat) (margin : ℕ)
    (poisson : Mat → Mat) (ideal : Mat)
    (h : cropMargin raw margin = .ok ideal) :
    framePost i angle raw margin none poisson = .ok (i, angle, .arr ideal) := by
  simp [framePost, h, computeFinalImage]

/-- Witness for C5 on a concrete 2x2 raw field with zero margin. -/
theorem frame_no_noise_identity_witness :
    cropMargin ⟨[[1, 2], [3, 4]]⟩ 0 = .ok ⟨[[1, 2], [3, 4]]⟩ ∧
    framePost 7 3 ⟨[[1, 2], [3, 4]]⟩ 0 none (fun m => m) =
      .ok (7, 3, .arr ⟨[[1, 2], [3, 4]]⟩) :=
  ⟨rfl, frame_no_noise_identity 7 3 ⟨[[1, 2], [3, 4]]⟩ 0 (fun m => m)
    ⟨[[1, 2], [3, 4]]⟩ rfl⟩

/-- C6 (code bug): with an electrons-per-pixel rate configured, the third
component of the returned triple is the 1-tuple `(poisson_array,)` built by
the trailing comma on simulation.py line 300, not a pixel array. -/
theorem frame_noise_returns_tuple (i : ℕ) (angle rate : ℚ) (raw ideal : Mat)
    (margin : ℕ) (poisson : Mat → Mat)
    (h : cropMargin raw margin = .ok ideal) :
    framePost i angle raw margin (some rate) poisson =
        .ok (i, angle, .tup (poisson (Mat.scale rate ideal))) ∧
      (ImageVal.tup (poisson (Mat.scale rate ideal))).isPixelArray = false := by
  exact ⟨by simp [framePost, h, computeFinalImage], rfl⟩

/-- Witness for C6 on a concrete 1x1 raw field with rate 2. -/
theorem frame_noise_returns_tuple_witness :
    cropMargin ⟨[[1]]⟩ 0 = .ok ⟨[[1]]⟩ ∧
    (framePost 0 0 ⟨[[1]]⟩ 0 (some 2) (fun m => m) =
        .ok (0, 0, .tup ((fun m => m) (Mat.scale 2 ⟨[[1]]⟩))) ∧
      (ImageVal.tup ((fun m => m) (Mat.scale 2 ⟨[[1]]⟩))).isPixelArray =
        false) :=
  ⟨rfl, frame_noise_returns_tuple 0 0 2 ⟨[[1]]⟩ ⟨[[1]]⟩ 0 (fun m => m) rfl⟩

section PpCropLemmas

/-- Slicing `l[0:0]` selects nothing. -/
lemma pySlice_zero_zero {α : Type} (l : List α) : pySlice 0 0 l = [] := by
  simp [pySlice]

/-- A Python slice is a subset of the original list. -/
lemma pySlice_subset {α : Type} (start stop : ℤ) (l : List α) :
    pySlice start stop l ⊆ l := by
  intro a ha
  simp only [pySlice] at ha
  exact List.drop_subset _ _ (List.take_subset _ _ ha)

/-- With a positive margin and enough elements, `l[margin:-margin]` drops
exactly `margin` elements from each end. -/
lemma pySlice_margin_length {α : Type} (m : ℕ) (l : List α) (hm : 0 < m)
    (hl : 2 * m ≤ l.length) :
    (pySlice (m : ℤ) (-(m : ℤ)) l).length = l.length - 2 * m := by
  have hmn : ¬ ((m : ℤ) < 0) := by omega
  have hneg : (-(m : ℤ)) < 0 := by omega
  have hln : (2 * m : ℤ) ≤ (l.length : ℤ) := by exact_mod_cast hl
  have hs : min (m : ℤ) ((l.length : ℕ) : ℤ) = (m : ℤ) :=
    min_eq_left (by omega)
  have he : max 0 (((l.length : ℕ) : ℤ) + -(m : ℤ)) =
      ((l.length : ℕ) : ℤ) + -(m : ℤ) := max_eq_right (by omega)
  simp only [pySlice, if_neg hmn, if_pos hneg, hs, he]
  rw [List.length_take, List.length_drop]
  omega

end PpCropLemmas

/-- C10: in the projected-potential per-slab callback, the crop expression
`V[margin:-margin, margin:-margin]` selects an empty array when
`margin = 0` (the stop index `-0` means 0), so the potential volume slot is
assigned an empty region; with `margin > 0` and the padded field shape
`(h + 2*margin, w + 2*margin)` the crop selects the intended `(h, w)`
region. -/
theorem projected_potential_crop_margin :
    (∀ V : Mat, ppCrop V 0 = ⟨[]⟩ ∧ ppSlotValue V 0 = ⟨[]⟩) ∧
    (∀ (V : Mat) (margin h w : ℕ), 0 < margin → 0 < h →
      V.data.length = h + 2 * margin →
      (∀ row ∈ V.data, row.length = w + 2 * margin) →
      (ppCrop V margin).shape = (h, w)) := by
  constructor
  · intro V
    have hcrop : ppCrop V 0 = ⟨[]⟩ := by
      simp [ppCrop, pySlice_zero_zero]
    refine ⟨hcrop, ?_⟩
    rw [ppSlotValue, hcrop]
    rfl
  · intro V margin h w hm hh hrows hrect
    have h2m : 2 * margin ≤ V.data.length := by omega
    have hlen : (pySlice (margin : ℤ) (-(margin : ℤ)) V.data).length = h := by
      rw [pySlice_margin_length margin V.data hm h2m, hrows]
      omega
    obtain ⟨r, t, hrt⟩ : ∃ r t, pySlice (margin : ℤ) (-(margin : ℤ)) V.data = r :: t := by
      cases hx : pySlice (margin : ℤ) (-(margin : ℤ)) V.data with
      | nil => rw [hx] at hlen; simp at hlen; omega
      | cons r t => exact ⟨r, t, rfl⟩
    have hrmem : r ∈ V.data := by
      apply pySlice_subset (margin : ℤ) (-(margin : ℤ)) V.data
      rw [hrt]
      exact List.mem_cons_self r t
    have hrlen : r.length = w + 2 * margin := hrect r hrmem
    have hrw : (pySlice (margin : ℤ) (-(margin : ℤ)) r).length = w := by
      rw [pySlice_margin_length margin r hm (by omega), hrlen]
      omega
    simp only [ppCrop, Mat.shape]
    congr 1
    · rw [List.length_map]
      exact hlen
    · rw [hrt, List.map_cons, List.head?_cons]
      exact hrw

/-- Witness for C10: a 1x1 field cropped with margin 0 is emptied, and a
4x4 field cropped with margin 1 keeps the intended 2x2 region. -/
theorem projected_potential_crop_margin_witness :
    (ppCrop ⟨[[1]]⟩ 0 = ⟨[]⟩ ∧ ppSlotValue ⟨[]⟩ 0 = ⟨[]⟩) ∧
    ((0 < 1 ∧ 0 < 2 ∧
        (Mat.data ⟨[[1, 1, 1, 1], [1, 2, 3, 1], [1, 4, 5, 1], [1, 1, 1, 1]]⟩).length =
          2 + 2 * 1 ∧
        ∀ row ∈ Mat.data ⟨[[1, 1, 1, 1], [1, 2, 3, 1], [1, 4, 5, 1], [1, 1, 1, 1]]⟩,
          row.length = 2 + 2 * 1) ∧
      (ppCrop ⟨[[1, 1, 1, 1], [1, 2, 3, 1], [1, 4, 5, 1], [1, 1, 1, 1]]⟩ 1).shape =
        (2, 2)) :=
  ⟨⟨(projected_potential_crop_margin.1 ⟨[[1]]⟩).1,
    (projected_potential_crop_margin.1 ⟨[]⟩).2⟩,
    ⟨⟨by decide, by decide, by decide, by decide⟩,
      projected_potential_crop_margin.2
        ⟨[[1, 1, 1, 1], [1, 2, 3, 1], [1, 4, 5, 1], [1, 1, 1, 1]]⟩ 1 2 2
        (by decide) (by decide) (by decide) (by decide)⟩⟩

section CropLemmas

/-- When both crop bounds are non-degenerate, `cropMargin` succeeds and
returns the sliced field. -/
lemma cropMargin_ok (img : Mat) (margin : ℕ)
    (hj : 2 * margin < img.data.length)
    (hi : 2 * margin < (img.data.head?.map List.length).getD 0) :
    cropMargin img margin = .ok
      ⟨((img.data.drop margin).take (img.data.length - 2 * margin)).map
        (fun row => (row.drop margin).take
          ((img.data.head?.map List.length).getD 0 - 2 * margin))⟩ := by
  unfold cropMargin
  have hgt1 : (((img.data.head?.map List.length).getD 0 : ℕ) : ℤ) -
      (margin : ℕ) > ((margin : ℕ) : ℤ) := by omega
  have hgt2 : ((img.data.length : ℤ)) - (margin : ℕ) > ((margin : ℕ) : ℤ) := by
    omega
  rw [if_neg (not_not_intro hgt1), if_neg (not_not_intro hgt2)]
  have ht1 : (((img.data.length : ℤ)) - (margin : ℕ) - ((margin : ℕ) : ℤ)).toNat =
      img.data.length - 2 * margin := by omega
  have ht2 : ((((img.data.head?.map List.length).getD 0 : ℕ) : ℤ) -
      (margin : ℕ) - ((margin : ℕ) : ℤ)).toNat =
      (img.data.head?.map List.length).getD 0 - 2 * margin := by omega
  rw [ht1, ht2]

end CropLemmas

/-- C4 counterexample: a 2x2 raw field with margin 0 satisfies the claim's
shape lower bound for a 1x1 detector, the crop succeeds, but the output
shape is (2, 2), not the detector shape (1, 1). -/
theorem crop_shape_counterexample :
    (Mat.shape ⟨[[0, 0], [0, 0]]⟩).1 ≥ 1 + 2 * 0 ∧
    (Mat.shape ⟨[[0, 0], [0, 0]]⟩).2 ≥ 1 + 2 * 0 ∧
    cropMargin ⟨[[0, 0], [0, 0]]⟩ 0 = .ok ⟨[[0, 0], [0, 0]]⟩ ∧
    Mat.shape ⟨[[0, 0], [0, 0]]⟩ ≠ (1, 1) :=
  ⟨by decide, by decide, rfl, by decide⟩

/-- C4 amended: when the raw engine field has shape exactly
`(h + 2*margin, w + 2*margin)` (as the engine is configured to produce),
the crop removes exactly `margin` pixels from every edge and the output has
shape exactly `(h, w)`. -/
theorem crop_removes_margin_exact (raw : Mat) (margin h w : ℕ)
    (hh : 0 < h) (hw : 0 < w)
    (hrows : raw.data.length = h + 2 * margin)
    (hrect : ∀ row ∈ raw.data, row.length = w + 2 * margin) :
    ∃ img, cropMargin raw margin = .ok img ∧ img.shape = (h, w) ∧
      ∀ j i, j < h → i < w →
        img.entry j i = raw.entry (j + margin) (i + margin) := by
  have hne : raw.data ≠ [] := by
    intro hc
    rw [hc] at hrows
    simp at hrows
    omega
  obtain ⟨r0, t0, hr0⟩ := List.exists_cons_of_ne_nil hne
  have hcols : (raw.data.head?.map List.length).getD 0 = w + 2 * margin := by
    rw [hr0]
    simp [hrect r0 (by rw [hr0]; exact List.mem_cons_self r0 t0)]
  have hok := cropMargin_ok raw margin (by omega) (by omega)
  rw [hcols, hrows] at hok
  have e1 : h + 2 * margin - 2 * margin = h := by omega
  have e2 : w + 2 * margin - 2 * margin = w := by omega
  rw [e1, e2] at hok
  refine ⟨_, hok, ?_, ?_⟩
  · have hlen1 : (((raw.data.drop margin).take h).map
        (fun row => (row.drop margin).take w)).length = h := by
      rw [List.length_map, List.length_take, List.length_drop, hrows]
      omega
    obtain ⟨r1, t1, hr1⟩ : ∃ r1 t1, (raw.data.drop margin).take h = r1 :: t1 := by
      cases hx : (raw.data.drop margin).take h with
      | nil =>
        rw [List.length_map, hx] at hlen1
        simp at hlen1
        omega
      | cons r1 t1 => exact ⟨r1, t1, rfl⟩
    have hr1mem : r1 ∈ raw.data := by
      apply List.drop_subset margin raw.data
      apply List.take_subset h (raw.data.drop margin)
      rw [hr1]
      exact List.mem_cons_self r1 t1
    have hr1len : ((r1.drop margin).take w).length = w := by
      rw [List.length_take, List.length_drop, hrect r1 hr1mem]
      omega
    simp only [Mat.shape, Prod.mk.injEq]
    refine ⟨hlen1, ?_⟩
    rw [hr1, List.map_cons, List.head?_cons]
    exact hr1len
  · intro j i hj hi
    have hmj : margin + j < raw.data.length := by omega
    have hrowlen : raw.data[margin + j].length = w + 2 * margin :=
      hrect _ (List.getElem_mem hmj)
    have hmi : margin + i < raw.data[margin + j].length := by omega
    simp only [Mat.entry, List.getElem?_map, List.getElem?_take, if_pos hj,
      List.getElem?_drop, List.getElem?_eq_getElem hmj, Option.map_some',
      Option.some_bind, if_pos hi, List.getElem?_eq_getElem hmi]
    have hjm : j + margin = margin + j := Nat.add_comm j margin
    have him : i + margin = margin + i := Nat.add_comm i margin
    rw [hjm, him, List.getElem?_eq_getElem hmj]
    simp only [Option.some_bind, List.getElem?_eq_getElem hmi]

/-- Witness for the amended C4 on a 3x3 raw field, margin 1, 1x1 output. -/
theorem crop_removes_margin_exact_witness :
    (0 < 1 ∧ 0 < 1 ∧
      (Mat.data ⟨[[1, 2, 3], [4, 5, 6], [7, 8, 9]]⟩).length = 1 + 2 * 1 ∧
      ∀ row ∈ Mat.data ⟨[[1, 2, 3], [4, 5, 6], [7, 8, 9]]⟩,
        row.length = 1 + 2 * 1) ∧
    ∃ img, cropMargin ⟨[[1, 2, 3], [4, 5, 6], [7, 8, 9]]⟩ 1 = .ok img ∧
      img.shape = (1, 1) ∧
      ∀ j i, j < 1 → i < 1 →
        img.entry j i = Mat.entry ⟨[[1, 2, 3], [4, 5, 6], [7, 8, 9]]⟩
          (j + 1) (i + 1) :=
  ⟨⟨by decide, by decide, by decide, by decide⟩,
    crop_removes_margin_exact ⟨[[1, 2, 3], [4, 5, 6], [7, 8, 9]]⟩ 1 1 1
      (by decide) (by decide) (by decide) (by decide)⟩

/-- The lower bound `z0 = i * spec_lz` of slab `i`, with
`spec_lz = length_z / num_slices`. -/
def slabLow (length_z : ℚ) (num_slices : ℕ) (i : ℕ) : ℚ :=
  i * (length_z / num_slices)

/-- The upper bound `z1` of slab `i`: `(i + 1) * spec_lz`, extended on the
last slab to `max(z1, max_z + 1)`. -/
def slabHigh (length_z : ℚ) (num_slices : ℕ) (max_z : ℚ) (i : ℕ) : ℚ :=
  if i = num_slices - 1 then
    max ((i + 1) * (length_z / num_slices)) (max_z + 1)
  else (i + 1) * (length_z / num_slices)

/-- The selection mask `(atom_z >= z0) & (atom_z < z1)` of slab `i`. -/
def slabSel (length_z : ℚ) (num_slices : ℕ) (max_z : ℚ) (i : ℕ)
    (b : Atom) : Bool :=
  decide (slabLow length_z num_slices i ≤ b.z) &&
    decide (b.z < slabHigh length_z num_slices max_z i)

/-- One loop iteration of `slice_atom_data`: yield
`(z0, z1 - z0, atom_data[selection])` when the selection is non-empty. -/
def mkSlab (atom_data : List Atom) (length_z : ℚ) (num_slices : ℕ)
    (max_z : ℚ) (i : ℕ) : Option (ℚ × ℚ × List Atom) :=
  let sel := atom_data.filter (slabSel length_z num_slices max_z i)
  if 0 < sel.length then
    some (slabLow length_z num_slices i,
      slabHigh length_z num_slices max_z i - slabLow length_z num_slices i,
      sel)
  else none

/-- numpy.min over the z column of a non-empty atom array. -/
def npMinZ (a : Atom) (rest : List Atom) : ℚ :=
  rest.foldl (fun m b => min m b.z) a.z

/-- numpy.max over the z column of a non-empty atom array. -/
def npMaxZ (a : Atom) (rest : List Atom) : ℚ :=
  rest.foldl (fun m b => max m b.z) a.z

/-- Embedding of `SingleImageSimulation.slice_atom_data` (simulation.py
lines 305-347).  The asserts become errors when violated, and on an empty
atom array `numpy.min` raises ValueError before any slab is produced.  The
engine-facing `multem.AtomList(extract_spec_atoms(...))` wrapper is
modelled as the selected atom subset itself. -/
def slice_atom_data (atom_data : List Atom) (length_z : ℚ)
    (num_slices : ℕ) : Except String (List (ℚ × ℚ × List Atom)) :=
  if length_z > 0 then
    if num_slices > 0 then
      match atom_data with
      | [] => .error "ValueError: zero-size array to reduction operation minimum which has no identity"
      | a :: rest =>
        if npMinZ a rest ≥ 0 then
          if npMaxZ a rest ≤ length_z then
            .ok ((List.range num_slices).filterMap
              (mkSlab (a :: rest) length_z num_slices (npMaxZ a rest)))
          else .error "AssertionError: max_z <= length_z"
        else .error "AssertionError: min_z >= 0"
    else .error "AssertionError: num_slices > 0"
  else .error "AssertionError: length_z > 0"

/-- C3 (code bug): on an empty atom subset `slice_atom_data` does not
produce zero slices — `numpy.min(atom_z)` raises ValueError on the
zero-size array, for every positive thickness and slab count. -/
theorem slice_atom_data_empty_error (length_z : ℚ) (num_slices : ℕ)
    (hlz : 0 < length_z) (hn : 1 ≤ num_slices) :
    slice_atom_data [] length_z num_slices =
      .error "ValueError: zero-size array to reduction operation minimum which has no identity" := by
  have hn' : 0 < num_slices := by omega
  simp [slice_atom_data, hlz, hn']

/-- Witness for C3 at thickness 1 and a single slab. -/
theorem slice_atom_data_empty_error_witness :
    ((0 : ℚ) < 1 ∧ 1 ≤ 1) ∧
    slice_atom_data [] 1 1 =
      .error "ValueError: zero-size array to reduction operation minimum which has no identity" :=
  ⟨⟨by decide, by decide⟩, slice_atom_data_empty_error 1 1 (by decide) (by decide)⟩

section FoldBounds

/-- A running max is at least its initial value. -/
lemma foldl_max_ge_init (x : ℚ) (l : List Atom) :
    x ≤ l.foldl (fun m b => max m b.z) x := by
  induction l generalizing x with
  | nil => exact le_refl x
  | cons c t ih => exact le_trans (le_max_left x c.z) (ih (max x c.z))

/-- A running max dominates every element folded in. -/
lemma foldl_max_ge_mem (x : ℚ) (l : List Atom) (b : Atom) (hb : b ∈ l) :
    b.z ≤ l.foldl (fun m b => max m b.z) x := by
  induction l generalizing x with
  | nil => cases hb
  | cons c t ih =>
    rcases List.mem_cons.mp hb with h | h
    · subst h
      exact le_trans (le_max_right x b.z) (foldl_max_ge_init (max x b.z) t)
    · exact ih (max x c.z) h

/-- A running max stays below any common upper bound. -/
lemma foldl_max_le (x bound : ℚ) (l : List Atom) (hx : x ≤ bound)
    (hl : ∀ b ∈ l, b.z ≤ bound) :
    l.foldl (fun m b => max m b.z) x ≤ bound := by
  induction l generalizing x with
  | nil => exact hx
  | cons c t ih =>
    exact ih (max x c.z) (max_le hx (hl c (List.mem_cons_self c t)))
      (fun b hb => hl b (List.mem_cons_of_mem c hb))

/-- A running min stays above any common lower bound. -/
lemma foldl_min_ge (x bound : ℚ) (l : List Atom) (hx : bound ≤ x)
    (hl : ∀ b ∈ l, bound ≤ b.z) :
    bound ≤ l.foldl (fun m b => min m b.z) x := by
  induction l generalizing x with
  | nil => exact hx
  | cons c t ih =>
    exact ih (min x c.z) (le_min hx (hl c (List.mem_cons_self c t)))
      (fun b hb => hl b (List.mem_cons_of_mem c hb))

end FoldBounds

section SlabArithmetic

/-- For i < j the upper bound of slab i is at most the lower bound of
slab j, so distinct slabs never overlap. -/
lemma slabHigh_le_slabLow (length_z : ℚ) (n : ℕ) (max_z : ℚ)
    (hlz : 0 < length_z) (i j : ℕ) (hij : i < j) (hjn : j < n) :
    slabHigh length_z n max_z i ≤ slabLow length_z n j := by
  have hni : i ≠ n - 1 := by omega
  rw [slabHigh, if_neg hni, slabLow]
  have hd : 0 ≤ length_z / n := by positivity
  have hij' : ((i : ℚ) + 1) ≤ (j : ℚ) := by exact_mod_cast hij
  exact mul_le_mul_of_nonneg_right hij' hd

/-- Every z value in `[0, length_z]` bounded by the observed maximum is
selected by exactly one slab. -/
lemma slab_mem_unique (length_z : ℚ) (n : ℕ) (max_z : ℚ)
    (hlz : 0 < length_z) (hn : 1 ≤ n) (z : ℚ) (hz0 : 0 ≤ z)
    (hzl : z ≤ length_z) (hzm : z ≤ max_z) :
    ∃ i, i < n ∧
      (slabLow length_z n i ≤ z ∧ z < slabHigh length_z n max_z i) ∧
      ∀ j, j < n → slabLow length_z n j ≤ z →
        z < slabHigh length_z n max_z j → j = i := by
  have hnq : (0 : ℚ) < (n : ℚ) := by exact_mod_cast hn
  have hd : 0 < length_z / n := div_pos hlz hnq
  have hnd : (n : ℚ) * (length_z / n) = length_z := by
    field_simp
  by_cases hlt : z < length_z
  · refine ⟨⌊z / (length_z / n)⌋₊, ?_, ⟨?_, ?_⟩, ?_⟩
    · rw [Nat.floor_lt (by positivity)]
      rw [div_lt_iff₀ hd, hnd]
      exact hlt
    · rw [slabLow, ← le_div_iff₀ hd]
      exact Nat.floor_le (by positivity)
    · have hup : z < ((⌊z / (length_z / n)⌋₊ : ℚ) + 1) * (length_z / n) := by
        rw [← div_lt_iff₀ hd]
        exact Nat.lt_floor_add_one (z / (length_z / n))
      rw [slabHigh]
      by_cases hni : ⌊z / (length_z / n)⌋₊ = n - 1
      · rw [if_pos hni]
        exact lt_of_lt_of_le hup (le_max_left _ _)
      · rw [if_neg hni]
        exact hup
    · intro j hj hjl hjh
      set i := ⌊z / (length_z / n)⌋₊ with hi
      have hil : (i : ℚ) * (length_z / n) ≤ z := by
        rw [← le_div_iff₀ hd]
        exact Nat.floor_le (by positivity)
      have hup : z < ((i : ℚ) + 1) * (length_z / n) := by
        rw [← div_lt_iff₀ hd]
        exact Nat.lt_floor_add_one (z / (length_z / n))
      rcases Nat.lt_trichotomy j i with h | h | h
      · exfalso
        have hin : i < n := by
          rw [hi, Nat.floor_lt (by positivity)]
          rw [div_lt_iff₀ hd, hnd]
          exact hlt
        have hjni : j ≠ n - 1 := by omega
        rw [slabHigh, if_neg hjni] at hjh
        have hcast : ((j : ℚ) + 1) ≤ (i : ℚ) := by exact_mod_cast h
        have : z < (i : ℚ) * (length_z / n) :=
          lt_of_lt_of_le hjh (mul_le_mul_of_nonneg_right hcast hd.le)
        exact absurd hil (not_le_of_lt this)
      · exact h
      · exfalso
        rw [slabLow] at hjl
        have hcast : ((i : ℚ) + 1) ≤ (j : ℚ) := by exact_mod_cast h
        have : z < (j : ℚ) * (length_z / n) :=
          lt_of_lt_of_le hup (mul_le_mul_of_nonneg_right hcast hd.le)
        exact absurd hjl (not_le_of_lt this)
  · have hzeq : z = length_z := le_antisymm hzl (not_lt.mp hlt)
    refine ⟨n - 1, by omega, ⟨?_, ?_⟩, ?_⟩
    · rw [slabLow]
      have hcast : ((n - 1 : ℕ) : ℚ) = (n : ℚ) - 1 := by
        rw [Nat.cast_sub hn, Nat.cast_one]
      rw [hcast, sub_mul, one_mul, hnd, hzeq]
      linarith
    · rw [slabHigh, if_pos rfl]
      exact lt_of_lt_of_le (by linarith) (le_max_right _ _)
    · intro j hj hjl hjh
      by_contra hne
      rw [slabHigh, if_neg hne] at hjh
      have hj1 : (j + 1 : ℕ) ≤ n - 1 := by omega
      have hc : ((j + 1 : ℕ) : ℚ) ≤ ((n - 1 : ℕ) : ℚ) := by exact_mod_cast hj1
      rw [Nat.cast_sub hn] at hc
      push_cast at hc
      have h2 : ((j : ℚ) + 1) * (length_z / n) ≤
          ((n : ℚ) - 1) * (length_z / n) :=
        mul_le_mul_of_nonneg_right hc hd.le
      have h3 : ((n : ℚ) - 1) * (length_z / n) = length_z - length_z / n := by
        rw [sub_mul, one_mul, hnd]
      have hj2 : z < ((j : ℚ) + 1) * (length_z / n) := hjh
      linarith

end SlabArithmetic

section CountLemmas

/-- Count in a filtered list when the predicate fails on the element. -/
lemma count_filter_false {α : Type} [DecidableEq α] (p : α → Bool) (l : List α)
    (a : α) (hp : p a = false) : (l.filter p).count a = 0 := by
  rw [List.count_eq_zero]
  intro hmem
  rw [List.mem_filter] at hmem
  simp [hp] at hmem

/-- A sum over distinct indices at which all but one value vanish. -/
lemma sum_single_index (l : List ℕ) (hnd : l.Nodup) (f : ℕ → ℕ) (i0 : ℕ)
    (hi0 : i0 ∈ l) (hother : ∀ j ∈ l, j ≠ i0 → f j = 0) :
    (l.map f).sum = f i0 := by
  induction l with
  | nil => cases hi0
  | cons c t ih =>
    rw [List.map_cons, List.sum_cons]
    rcases List.mem_cons.mp hi0 with h | h
    · subst h
      have hts : (t.map f).sum = 0 := by
        apply List.sum_eq_zero
        intro x hx
        obtain ⟨j, hj, rfl⟩ := List.mem_map.mp hx
        exact hother j (List.mem_cons_of_mem _ hj)
          (fun he => (List.nodup_cons.mp hnd).1 (he ▸ hj))
      rw [hts]
      omega
    · have hc0 : f c = 0 := hother c (List.mem_cons_self c t)
        (fun he => (List.nodup_cons.mp hnd).1 (he ▸ h))
      rw [hc0, ih (List.nodup_cons.mp hnd).2 h
        (fun j hj hne => hother j (List.mem_cons_of_mem _ hj) hne)]
      omega

/-- Dropping the empty selections does not change the flattened union of
the per-slab atom subsets. -/
lemma flatten_filterMap_mkSlab (atom_data : List Atom) (length_z : ℚ)
    (num_slices : ℕ) (max_z : ℚ) (l : List ℕ) :
    ((l.filterMap (mkSlab atom_data length_z num_slices max_z)).map
        (fun s => s.2.2)).flatten =
      (l.map (fun i =>
        atom_data.filter (slabSel length_z num_slices max_z i))).flatten := by
  induction l with
  | nil => rfl
  | cons c t ih =>
    by_cases hc :
        0 < (atom_data.filter (slabSel length_z num_slices max_z c)).length
    · have hmk : mkSlab atom_data length_z num_slices max_z c = some
          (slabLow length_z num_slices c,
            slabHigh length_z num_slices max_z c - slabLow length_z num_slices c,
            atom_data.filter (slabSel length_z num_slices max_z c)) := by
        simp [mkSlab, hc]
      rw [List.filterMap_cons_some hmk, List.map_cons, List.flatten_cons,
        List.map_cons, List.flatten_cons, ih]
    · have h0 : atom_data.filter (slabSel length_z num_slices max_z c) = [] := by
        have hlen0 :
            (atom_data.filter (slabSel length_z num_slices max_z c)).length = 0 := by
          omega
        exact List.length_eq_zero.mp hlen0
      have hmk : mkSlab atom_data length_z num_slices max_z c = none := by
        simp [mkSlab, h0]
      rw [List.filterMap_cons_none hmk, List.map_cons, List.flatten_cons, h0,
        List.nil_append, ih]

/-- Pairwise structure survives filterMap when related inputs map to
related outputs. -/
lemma pairwise_filterMap_of {α β : Type} (R : α → α → Prop)
    (S : β → β → Prop) (f : α → Option β) {l : List α} (hl : l.Pairwise R)
    (h : ∀ a b, R a b → ∀ x, f a = some x → ∀ y, f b = some y → S x y) :
    (l.filterMap f).Pairwise S := by
  induction hl with
  | nil => exact List.Pairwise.nil
  | cons hR hP ih =>
    rename_i a l'
    cases hfa : f a with
    | none => rw [List.filterMap_cons_none hfa]; exact ih
    | some x =>
      rw [List.filterMap_cons_some hfa]
      refine List.Pairwise.cons ?_ ih
      intro y hy
      obtain ⟨b, hb, hfb⟩ := List.mem_filterMap.mp hy
      exact h a b (hR b hb) x hfa y hfb

end CountLemmas

/-- C1: on a non-empty atom subset whose z values lie in `[0, Lz]`, with
`Lz > 0` and `N ≥ 1`, `slice_atom_data` succeeds and produces slabs that
are pairwise non-overlapping in z (each slab ends no later than the next
begins) whose atom subsets together form a permutation of the full input
subset — no atom lost or duplicated — and any atom exactly at the maximum
z value `Lz` lands in the last produced slab. -/
theorem slice_atom_data_partition (atom_data : List Atom) (length_z : ℚ)
    (num_slices : ℕ) (hlz : 0 < length_z) (hn : 1 ≤ num_slices)
    (hne : atom_data ≠ [])
    (hz : ∀ b ∈ atom_data, 0 ≤ b.z ∧ b.z ≤ length_z) :
    ∃ slabs, slice_atom_data atom_data length_z num_slices = .ok slabs ∧
      slabs.Pairwise (fun s t => s.1 + s.2.1 ≤ t.1) ∧
      ((slabs.map (fun s => s.2.2)).flatten).Perm atom_data ∧
      (∀ b ∈ atom_data, b.z = length_z →
        ∃ s, slabs.getLast? = some s ∧ b ∈ s.2.2) := by
  obtain ⟨a, rest, rfl⟩ := List.exists_cons_of_ne_nil hne
  have hmzb : ∀ b ∈ a :: rest, b.z ≤ npMaxZ a rest := by
    intro b hb
    rcases List.mem_cons.mp hb with h | h
    · rw [h, npMaxZ]
      exact foldl_max_ge_init a.z rest
    · exact foldl_max_ge_mem a.z rest b h
  have hmin : npMinZ a rest ≥ 0 :=
    foldl_min_ge a.z 0 rest (hz a (List.mem_cons_self a rest)).1
      (fun b hb => (hz b (List.mem_cons_of_mem a hb)).1)
  have hmax : npMaxZ a rest ≤ length_z :=
    foldl_max_le a.z length_z rest (hz a (List.mem_cons_self a rest)).2
      (fun b hb => (hz b (List.mem_cons_of_mem a hb)).2)
  have hn' : 0 < num_slices := by omega
  have hok : slice_atom_data (a :: rest) length_z num_slices =
      .ok ((List.range num_slices).filterMap
        (mkSlab (a :: rest) length_z num_slices (npMaxZ a rest))) := by
    simp [slice_atom_data, hlz, hn', hmin, hmax]
  refine ⟨_, hok, ?_, ?_, ?_⟩
  · have hpw : (List.range num_slices).Pairwise
        (fun i j => i < j ∧ j < num_slices) :=
      List.Pairwise.imp_of_mem
        (fun hi hj hij => ⟨hij, List.mem_range.mp hj⟩)
        (List.pairwise_lt_range num_slices)
    refine pairwise_filterMap_of (fun i j => i < j ∧ j < num_slices)
      (fun s t => s.1 + s.2.1 ≤ t.1)
      (mkSlab (a :: rest) length_z num_slices (npMaxZ a rest)) hpw ?_
    intro i j hij s hs t ht
    rw [mkSlab] at hs ht
    by_cases hsi :
        0 < ((a :: rest).filter
          (slabSel length_z num_slices (npMaxZ a rest) i)).length
    · by_cases hsj :
          0 < ((a :: rest).filter
            (slabSel length_z num_slices (npMaxZ a rest) j)).length
      · rw [if_pos hsi] at hs
        rw [if_pos hsj] at ht
        cases hs
        cases ht
        simp only [add_sub_cancel]
        exact slabHigh_le_slabLow length_z num_slices (npMaxZ a rest) hlz
          i j hij.1 hij.2
      · rw [if_neg hsj] at ht
        cases ht
    · rw [if_neg hsi] at hs
      cases hs
  · rw [List.perm_iff_count]
    intro b
    rw [flatten_filterMap_mkSlab, List.count_flatten, List.map_map]
    by_cases hb : b ∈ a :: rest
    · obtain ⟨i0, hi0n, ⟨hi0l, hi0h⟩, hi0u⟩ :=
        slab_mem_unique length_z num_slices (npMaxZ a rest) hlz hn b.z
          (hz b hb).1 (hz b hb).2 (hmzb b hb)
      have hseli0 : slabSel length_z num_slices (npMaxZ a rest) i0 b = true := by
        rw [slabSel]
        simp [hi0l, hi0h]
      have hself : ∀ j, j ≠ i0 →
          slabSel length_z num_slices (npMaxZ a rest) j b = false ∨
            ¬ j < num_slices := by
        intro j hjne
        by_cases hjn : j < num_slices
        · left
          cases hsel : slabSel length_z num_slices (npMaxZ a rest) j b with
          | false => rfl
          | true =>
            exfalso
            rw [slabSel, Bool.and_eq_true, decide_eq_true_iff,
              decide_eq_true_iff] at hsel
            exact hjne (hi0u j hjn hsel.1 hsel.2)
        · right
          exact hjn
      rw [sum_single_index (List.range num_slices) (List.nodup_range num_slices)
        _ i0 (List.mem_range.mpr hi0n) ?_]
      · exact List.count_filter hseli0
      · intro j hj hjne
        rcases hself j hjne with h | h
        · exact count_filter_false _ _ _ h
        · exact absurd (List.mem_range.mp hj) h
    · have hz0 : (a :: rest).count b = 0 := List.count_eq_zero.mpr hb
      rw [hz0]
      apply List.sum_eq_zero
      intro x hx
      obtain ⟨j, _, rfl⟩ := List.mem_map.mp hx
      simp only [Function.comp_apply]
      rw [List.count_eq_zero]
      intro hmem
      exact hb (List.mem_filter.mp hmem).1
  · intro b hb hbz
    have hsel : slabSel length_z num_slices (npMaxZ a rest)
        (num_slices - 1) b = true := by
      rw [slabSel, Bool.and_eq_true, decide_eq_true_iff, decide_eq_true_iff]
      constructor
      · rw [slabLow, hbz]
        have hnq : (0 : ℚ) < (num_slices : ℚ) := by exact_mod_cast hn
        have hd : 0 < length_z / num_slices := div_pos hlz hnq
        have hnd : (num_slices : ℚ) * (length_z / num_slices) = length_z := by
          field_simp
        have hcast : ((num_slices - 1 : ℕ) : ℚ) = (num_slices : ℚ) - 1 := by
          rw [Nat.cast_sub hn, Nat.cast_one]
        rw [hcast, sub_mul, one_mul, hnd]
        linarith
      · rw [slabHigh, if_pos rfl]
        exact lt_of_lt_of_le (by linarith [hmzb b hb]) (le_max_right _ _)
    have hbf : b ∈ (a :: rest).filter
        (slabSel length_z num_slices (npMaxZ a rest) (num_slices - 1)) :=
      List.mem_filter.mpr ⟨hb, hsel⟩
    have hflen : 0 < ((a :: rest).filter
        (slabSel length_z num_slices (npMaxZ a rest)
          (num_slices - 1))).length := List.length_pos.mpr (by
      intro hc
      rw [hc] at hbf
      cases hbf)
    have hmk : mkSlab (a :: rest) length_z num_slices (npMaxZ a rest)
        (num_slices - 1) = some
        (slabLow length_z num_slices (num_slices - 1),
          slabHigh length_z num_slices (npMaxZ a rest) (num_slices - 1) -
            slabLow length_z num_slices (num_slices - 1),
          (a :: rest).filter
            (slabSel length_z num_slices (npMaxZ a rest)
              (num_slices - 1))) := by
      simp [mkSlab, hflen]
    have hrange : List.range num_slices =
        List.range (num_slices - 1) ++ [num_slices - 1] := by
      have he : num_slices = (num_slices - 1) + 1 := by omega
      rw [he, List.range_succ]
      simp
    rw [hrange, List.filterMap_append]
    refine ⟨(slabLow length_z num_slices (num_slices - 1),
      slabHigh length_z num_slices (npMaxZ a rest) (num_slices - 1) -
        slabLow length_z num_slices (num_slices - 1),
      (a :: rest).filter
        (slabSel length_z num_slices (npMaxZ a rest) (num_slices - 1))),
      ?_, hbf⟩
    rw [show List.filterMap (mkSlab (a :: rest) length_z num_slices
        (npMaxZ a rest)) [num_slices - 1] =
        [(slabLow length_z num_slices (num_slices - 1),
          slabHigh length_z num_slices (npMaxZ a rest) (num_slices - 1) -
            slabLow length_z num_slices (num_slices - 1),
          (a :: rest).filter
            (slabSel length_z num_slices (npMaxZ a rest)
              (num_slices - 1)))] from List.filterMap_cons_some hmk,
      List.getLast?_concat]

/-- Witness for C1: thickness 30, three slabs, atoms at an interior
boundary (z = 10), in the interior (z = 5) and exactly at the maximum
(z = 30). -/
theorem slice_atom_data_partition_witness :
    ((0 : ℚ) < 30 ∧ 1 ≤ 3 ∧
      ([⟨0, 0, 5⟩, ⟨0, 0, 10⟩, ⟨0, 0, 30⟩] : List Atom) ≠ [] ∧
      ∀ b ∈ ([⟨0, 0, 5⟩, ⟨0, 0, 10⟩, ⟨0, 0, 30⟩] : List Atom),
        0 ≤ b.z ∧ b.z ≤ 30) ∧
    ∃ slabs, slice_atom_data [⟨0, 0, 5⟩, ⟨0, 0, 10⟩, ⟨0, 0, 30⟩] 30 3 =
        .ok slabs ∧
      slabs.Pairwise (fun s t => s.1 + s.2.1 ≤ t.1) ∧
      ((slabs.map (fun s => s.2.2)).flatten).Perm
        [⟨0, 0, 5⟩, ⟨0, 0, 10⟩, ⟨0, 0, 30⟩] ∧
      (∀ b ∈ ([⟨0, 0, 5⟩, ⟨0, 0, 10⟩, ⟨0, 0, 30⟩] : List Atom), b.z = 30 →
        ∃ s, slabs.getLast? = some s ∧ b ∈ s.2.2) :=
  ⟨⟨by decide, by decide, by decide, by decide⟩,
    slice_atom_data_partition [⟨0, 0, 5⟩, ⟨0, 0, 10⟩, ⟨0, 0, 30⟩] 30 3
      (by decide) (by decide) (by decide) (by decide)⟩

end Elfantasma
